import Mathlib

/-!
Verification of the well-report ETL script (scripts/process_wells.py).

The script is embedded shallowly:

* Python strings are modelled as lists of characters (PyStr); a CSV row is a
  structure of optional raw string fields, one per column the script reads
  (a missing column yields None in Python, here Option.none).
* Python floats are modelled as rationals; the builtin float(str) and int(str)
  parsers are modelled over the decimal/scientific grammar they accept
  (optional surrounding whitespace, optional sign, digits with an optional
  single point, optional exponent).  The special values inf and nan are not
  modelled: they cannot pass the coordinate envelope check and no claim
  depends on them.  round() is round-half-to-even, as in Python 3.
* The per-row loop body of process_wells (lines 53-121 of the script) is the
  function normalizeRow below; the summary, per-county and index artifacts
  (lines 129-181) are counties_json, county_files and index_json.
-/

set_option allowUnsafeReducibility true in
attribute [semireducible] Rat.add Rat.mul Rat.sub Rat.inv Rat.ofScientific

/-- Python strings, modelled as character lists so that every string
operation used by the script is structurally recursive. -/
abbrev PyStr := List Char

/-- Python str.strip() with no argument: remove whitespace from both ends. -/
def pyStrip (s : PyStr) : PyStr :=
  ((s.dropWhile Char.isWhitespace).reverse.dropWhile Char.isWhitespace).reverse

/-- Python str.lower() (ASCII range, which covers the county names). -/
def pyLower (s : PyStr) : PyStr := s.map Char.toLower

/-- Python str.split(sep) for a one-character separator: "".split(sep) is
[""], and every separator occurrence opens a new (possibly empty) group. -/
def pySplit (sep : Char) : PyStr → List PyStr
  | [] => [[]]
  | c :: rest =>
    if c = sep then [] :: pySplit sep rest
    else
      match pySplit sep rest with
      | g :: gs => (c :: g) :: gs
      | [] => [[c]]

/-- Numeric value of a digit string (callers check the digits). -/
def natValD (s : List Char) : ℕ := s.foldl (fun acc c => acc * 10 + (c.toNat - 48)) 0

/-- Python int(str): optional surrounding whitespace, optional sign, then a
nonempty run of decimal digits; anything else raises, modelled as none. -/
def pyParseIntStr (s : PyStr) : Option ℤ :=
  match pyStrip s with
  | '+' :: t => if t ≠ [] ∧ t.all Char.isDigit then some (natValD t : ℤ) else none
  | '-' :: t => if t ≠ [] ∧ t.all Char.isDigit then some (-(natValD t : ℤ)) else none
  | t => if t ≠ [] ∧ t.all Char.isDigit then some (natValD t : ℤ) else none

/-- Multiply a rational by a signed power of ten (the exponent part of a
float literal). -/
def applyExp (q : ℚ) : ℤ → ℚ
  | .ofNat n => q * ((10 ^ n : ℕ) : ℚ)
  | .negSucc n => q / ((10 ^ (n + 1) : ℕ) : ℚ)

/-- Mantissa and exponent of a Python float literal, sign already removed:
digits with an optional single point, then an optional e/E exponent. -/
def pyFloatMag (s : PyStr) : Option ℚ :=
  let mant := s.takeWhile fun c => !(c == 'e' || c == 'E')
  let rest := s.dropWhile fun c => !(c == 'e' || c == 'E')
  let expo : Option ℤ :=
    match rest with
    | [] => some 0
    | _ :: t =>
      match t with
      | '+' :: d => if d ≠ [] ∧ d.all Char.isDigit then some ((natValD d : ℤ)) else none
      | '-' :: d => if d ≠ [] ∧ d.all Char.isDigit then some (-(natValD d : ℤ)) else none
      | d => if d ≠ [] ∧ d.all Char.isDigit then some ((natValD d : ℤ)) else none
  let ip := mant.takeWhile Char.isDigit
  let rest2 := mant.dropWhile Char.isDigit
  let mantVal : Option (ℕ × ℕ) :=
    match rest2 with
    | [] => if ip = [] then none else some (natValD ip, 0)
    | '.' :: fp =>
      if (ip = [] ∧ fp = []) ∨ ¬ fp.all Char.isDigit then none
      else some (natValD ip * 10 ^ fp.length + natValD fp, fp.length)
    | _ => none
  match mantVal, expo with
  | some (m, f), some e => some (applyExp (mkRat (m : ℤ) (10 ^ f)) e)
  | _, _ => none

/-- Python float(str): optional surrounding whitespace and sign around a
decimal/scientific literal; failure (ValueError) is modelled as none. -/
def pyFloat (s : PyStr) : Option ℚ :=
  match pyStrip s with
  | '+' :: t => pyFloatMag t
  | '-' :: t => (pyFloatMag t).map Neg.neg
  | t => pyFloatMag t

/-- Script helper parse_float (lines 17-22): None for a missing field, an
empty or blank string, or a float() failure; otherwise the parsed value. -/
def parse_float (val : Option PyStr) : Option ℚ :=
  match val with
  | none => none
  | some s => if pyStrip s = [] then none else pyFloat s

/-- Floor of a rational, written so that it evaluates by kernel reduction. -/
def ratFloor (q : ℚ) : ℤ := q.num / (q.den : ℤ)

/-- Python int(float): truncation toward zero. -/
def ratTrunc (q : ℚ) : ℤ := if 0 ≤ q then ratFloor q else -ratFloor (-q)

/-- Script helper parse_int (lines 24-29): int(float(val)) guarded exactly
like parse_float, so values such as "150.0" parse to 150. -/
def parse_int (val : Option PyStr) : Option ℤ :=
  match val with
  | none => none
  | some s => if pyStrip s = [] then none else (pyFloat s).map ratTrunc

/-- Python round(q) with one argument: nearest integer, ties to even. -/
def pyRound (q : ℚ) : ℤ :=
  let f : ℤ := ratFloor q
  let r : ℚ := q - (f : ℚ)
  if r < 1 / 2 then f
  else if 1 / 2 < r then f + 1
  else if f % 2 = 0 then f else f + 1

/-- Python round(q, 5): nearest multiple of 10 ^ (-5), ties to even. -/
def pyRound5 (q : ℚ) : ℚ := ((pyRound (q * 100000) : ℤ) : ℚ) / 100000

/-- One CSV row, restricted to the columns the script reads.  csv.DictReader
yields string values; a column absent from the file is modelled as none. -/
structure Row where
  DECIMALLATITUDE : Option PyStr := none
  DECIMALLONGITUDE : Option PyStr := none
  TOTALDRILLDEPTH : Option PyStr := none
  TOTALCOMPLETEDDEPTH : Option PyStr := none
  STATICWATERLEVEL : Option PyStr := none
  WELLYIELD : Option PyStr := none
  DATEWORKENDED : Option PyStr := none
  COUNTYNAME : Option PyStr := none
deriving DecidableEq

/-- The compact well record built at lines 94-116.  A field holding none is
the field that line 119 strips from the dict before serialization. -/
structure Well where
  lat : ℚ
  lon : ℚ
  depth : Option ℤ
  static : Option ℤ
  yieldQ : Option ℚ
  year : Option ℤ
deriving DecidableEq

/-- Keys surviving the strip at line 119: a key is present in the serialized
record exactly when its value is not None. -/
def wellKeys (w : Well) : List String :=
  ["lat", "lon"]
    ++ (if w.depth.isSome then ["depth"] else [])
    ++ (if w.static.isSome then ["static"] else [])
    ++ (if w.yieldQ.isSome then ["yield"] else [])
    ++ (if w.year.isSome then ["year"] else [])

/-- Python or on Optional[int] operands (line 76): the left value unless it
is falsy, where both None and 0 are falsy. -/
def pyOr (a b : Option ℤ) : Option ℤ :=
  match a with
  | some x => if x = 0 then b else some x
  | none => b

/-- Year extraction (lines 103-116): only strings of length at least 4 are
examined; a slash string must split into exactly 3 parts, the third giving
the year; otherwise a hyphen string gives its first 4 characters; int()
failures are caught and leave the year absent. -/
def extract_year (date_str : PyStr) : Option ℤ :=
  if 4 ≤ date_str.length then
    if date_str.contains '/' then
      match pySplit '/' date_str with
      | [_, _, y] => pyParseIntStr y
      | _ => none
    else if date_str.contains '-' then
      pyParseIntStr (date_str.take 4)
    else none
  else none

/-- Region key (lines 81-84): the stripped county name, with a missing column
defaulting to "Unknown" before the strip and a blank result replaced after. -/
def county (r : Row) : PyStr :=
  let c := pyStrip (r.COUNTYNAME.getD "Unknown".toList)
  if c = [] then "Unknown".toList else c

/-- The record dict built at lines 94-116 for an accepted row with parsed
coordinates la and lo. -/
def mkWell (r : Row) (la lo : ℚ) : Well :=
  { lat := pyRound5 la
    lon := pyRound5 lo
    depth := pyOr (parse_int r.TOTALCOMPLETEDDEPTH) (parse_int r.TOTALDRILLDEPTH)
    static := parse_int r.STATICWATERLEVEL
    yieldQ := parse_float r.WELLYIELD
    year := extract_year (r.DATEWORKENDED.getD []) }

/-- The per-row body of the scan loop (lines 59-121): parse both coordinates,
reject on parse failure or an out-of-envelope value, otherwise emit the
region key and the compact record. -/
def normalizeRow (r : Row) : Option (PyStr × Well) :=
  match parse_float r.DECIMALLATITUDE, parse_float r.DECIMALLONGITUDE with
  | some la, some lo =>
    if 32 ≤ la ∧ la ≤ 42 ∧ -125 ≤ lo ∧ lo ≤ -114 then
      some (county r, mkWell r la lo)
    else none
  | _, _ => none

/-- The accepted (region, record) pairs of a scan, in source order. -/
def acceptedPairs (rows : List Row) : List (PyStr × Well) := rows.filterMap normalizeRow

/-- Contents of wells_by_county[c] after the scan: the records accepted for
region c, in source order. -/
def bucketOf (ps : List (PyStr × Well)) (c : PyStr) : List Well :=
  ps.filterMap fun p => if p.1 = c then some p.2 else none

/-- Bucket for region c over a row list. -/
def bucket (rows : List Row) (c : PyStr) : List Well := bucketOf (acceptedPairs rows) c

/-- The distinct region keys of a scan. -/
def regionKeysOf (ps : List (PyStr × Well)) : List PyStr := (ps.map Prod.fst).dedup

/-- Region keys in the sorted order the writer iterates in (sorted(...)). -/
def sortedKeysOf (ps : List (PyStr × Well)) : List PyStr :=
  List.insertionSort (· ≤ ·) (regionKeysOf ps)

/-- Counter records_with_coords (line 71): one increment per accepted row. -/
def records_with_coords (rows : List Row) : ℕ :=
  rows.countP fun r => (normalizeRow r).isSome

/-- Counter records_with_depth (lines 78-79): accepted rows whose selected
depth is not None (a zero depth still counts). -/
def records_with_depth (rows : List Row) : ℕ :=
  (acceptedPairs rows).countP fun p => p.2.depth.isSome

/-- The depth sample list of a bucket (line 131, and equally the running list
of lines 90-91): depths filtered by Python truthiness, so both a missing and
a zero depth are excluded. -/
def regionDepths (ws : List Well) : List ℤ :=
  ws.filterMap fun w =>
    match w.depth with
    | some d => if d = 0 then none else some d
    | none => none

/-- One entry of counties.json. -/
structure RegionSummary where
  name : PyStr
  count : ℕ
  avgDepth : Option ℤ
  minDepth : Option ℤ
  maxDepth : Option ℤ
deriving DecidableEq

/-- The summary entry computed at lines 130-142: rounded mean, min and max of
the truthy depths, all None when that sample list is empty. -/
def regionSummary (c : PyStr) (ws : List Well) : RegionSummary :=
  let depths := regionDepths ws
  { name := c
    count := ws.length
    avgDepth :=
      match depths with
      | [] => none
      | _ => some (pyRound (((depths.sum : ℤ) : ℚ) / (depths.length : ℚ)))
    minDepth :=
      match depths with
      | [] => none
      | d :: ds => some (ds.foldl min d)
    maxDepth :=
      match depths with
      | [] => none
      | d :: ds => some (ds.foldl max d) }

/-- counties.json (lines 129-147): one summary per region, sorted by name. -/
def counties_jsonOf (ps : List (PyStr × Well)) : List RegionSummary :=
  (sortedKeysOf ps).map fun c => regionSummary c (bucketOf ps c)

def counties_json (rows : List Row) : List RegionSummary := counties_jsonOf (acceptedPairs rows)

/-- Filename derivation (lines 154-155 and 169-173): lowercase, spaces to
hyphens, periods removed, then the .json suffix. -/
def filenameOf (c : PyStr) : PyStr :=
  (((pyLower c).map fun ch => if ch = ' ' then '-' else ch).filter fun ch => ch ≠ '.')
    ++ ".json".toList

/-- The per-region file writes (lines 150-161): filename and serialized
record list for each region, in sorted order. -/
def county_filesOf (ps : List (PyStr × Well)) : List (PyStr × List Well) :=
  (sortedKeysOf ps).map fun c => (filenameOf c, bucketOf ps c)

def county_files (rows : List Row) : List (PyStr × List Well) :=
  county_filesOf (acceptedPairs rows)

/-- Minimum of a nonempty list as Python min computes it (line 176); the
empty case never occurs because buckets hold at least one record. -/
def listMinQ : List ℚ → ℚ
  | [] => 0
  | d :: ds => ds.foldl min d

/-- Maximum of a nonempty list as Python max computes it. -/
def listMaxQ : List ℚ → ℚ
  | [] => 0
  | d :: ds => ds.foldl max d

/-- The bounding box of index.json entries. -/
structure Bounds where
  minLat : ℚ
  maxLat : ℚ
  minLon : ℚ
  maxLon : ℚ
deriving DecidableEq

/-- One entry of index.json. -/
structure IndexEntry where
  name : PyStr
  file : PyStr
  count : ℕ
  bounds : Bounds
deriving DecidableEq

/-- index.json (lines 163-186): per region, the derived filename, the record
count and the bounding box over the stored (rounded) coordinates. -/
def index_jsonOf (ps : List (PyStr × Well)) : List IndexEntry :=
  (sortedKeysOf ps).map fun c =>
    { name := c
      file := filenameOf c
      count := (bucketOf ps c).length
      bounds :=
        { minLat := listMinQ ((bucketOf ps c).map Well.lat)
          maxLat := listMaxQ ((bucketOf ps c).map Well.lat)
          minLon := listMinQ ((bucketOf ps c).map Well.lon)
          maxLon := listMaxQ ((bucketOf ps c).map Well.lon) } }

def index_json (rows : List Row) : List IndexEntry := index_jsonOf (acceptedPairs rows)

/-! Concrete inputs used to instantiate the theorems below. -/

/-- Row whose completed depth parses to 0 while the drill depth is 150. -/
def exRowC1 : Row :=
  { DECIMALLATITUDE := some "35".toList, DECIMALLONGITUDE := some "-120".toList,
    TOTALCOMPLETEDDEPTH := some "0".toList, TOTALDRILLDEPTH := some "150".toList }

/-- The record the script emits for exRowC1. -/
def exWellC1 : Well :=
  { lat := 35, lon := -120, depth := some 150, static := none, yieldQ := none, year := none }

/-- Row whose selected depth is 0 (drill depth "0", no completed depth). -/
def exRowC2 : Row :=
  { DECIMALLATITUDE := some "35".toList, DECIMALLONGITUDE := some "-120".toList,
    TOTALDRILLDEPTH := some "0".toList }

/-- The record the script emits for exRowC2: the depth field is kept as 0. -/
def exWellC2 : Well :=
  { lat := 35, lon := -120, depth := some 0, static := none, yieldQ := none, year := none }

/-- Two accepted rows with depths 100 and 200 in the same (Unknown) region. -/
def exRowC2a : Row :=
  { DECIMALLATITUDE := some "35".toList, DECIMALLONGITUDE := some "-120".toList,
    TOTALDRILLDEPTH := some "100".toList }

def exRowC2b : Row :=
  { DECIMALLATITUDE := some "35".toList, DECIMALLONGITUDE := some "-120".toList,
    TOTALDRILLDEPTH := some "200".toList }

/-- The summary entry for the region of exRowC2a and exRowC2b. -/
def exSummaryC2 : RegionSummary :=
  { name := "Unknown".toList, count := 2, avgDepth := some 150, minDepth := some 100,
    maxDepth := some 200 }

/-- A valid in-envelope row. -/
def exRowC3 : Row :=
  { DECIMALLATITUDE := some "35".toList, DECIMALLONGITUDE := some "-120".toList }

def exWellC3 : Well :=
  { lat := 35, lon := -120, depth := none, static := none, yieldQ := none, year := none }

/-- An out-of-envelope row (latitude 50), otherwise complete. -/
def badRowC3 : Row :=
  { DECIMALLATITUDE := some "50".toList, DECIMALLONGITUDE := some "-120".toList,
    TOTALDRILLDEPTH := some "150".toList, COUNTYNAME := some "Kern".toList }

/-- Two rows in county Kern with distinct coordinates. -/
def exRowC5a : Row :=
  { DECIMALLATITUDE := some "35".toList, DECIMALLONGITUDE := some "-120".toList,
    COUNTYNAME := some "Kern".toList }

def exRowC5b : Row :=
  { DECIMALLATITUDE := some "36".toList, DECIMALLONGITUDE := some "-118".toList,
    COUNTYNAME := some "Kern".toList }

def exWellC5 : Well :=
  { lat := 35, lon := -120, depth := none, static := none, yieldQ := none, year := none }

/-- The index entry for county Kern over exRowC5a and exRowC5b. -/
def exEntryC5 : IndexEntry :=
  { name := "Kern".toList, file := "kern.json".toList, count := 2,
    bounds := { minLat := 35, maxLat := 36, minLon := -120, maxLon := -118 } }

/-- A row with valid coordinates and a blank county name. -/
def exRowC8 : Row :=
  { DECIMALLATITUDE := some "35".toList, DECIMALLONGITUDE := some "-120".toList,
    COUNTYNAME := some "  ".toList }

def exWellC8 : Well :=
  { lat := 35, lon := -120, depth := none, static := none, yieldQ := none, year := none }

/-- A row in a county whose name holds a space. -/
def exRowC9 : Row :=
  { DECIMALLATITUDE := some "35".toList, DECIMALLONGITUDE := some "-120".toList,
    COUNTYNAME := some "Los Angeles".toList }

/-- The index entry for exRowC9. -/
def exEntryC9 : IndexEntry :=
  { name := "Los Angeles".toList, file := "los-angeles.json".toList, count := 1,
    bounds := { minLat := 35, maxLat := 35, minLon := -120, maxLon := -120 } }

/-- Row whose selected depth is 0, for the zero-depth claim. -/
def exRowC10 : Row :=
  { DECIMALLATITUDE := some "35".toList, DECIMALLONGITUDE := some "-120".toList,
    TOTALDRILLDEPTH := some "0".toList }

def exWellC10 : Well :=
  { lat := 35, lon := -120, depth := some 0, static := none, yieldQ := none, year := none }

/-! Helper lemmas about the embedding. -/

theorem ratFloor_eq (q : ℚ) : ratFloor q = ⌊q⌋ := Rat.floor_def.symm

theorem ratFloor_le_pyRound (q : ℚ) : ratFloor q ≤ pyRound q := by
  unfold pyRound
  dsimp only
  split_ifs <;> omega

theorem le_pyRound_of_le {m : ℤ} {q : ℚ} (h : (m : ℚ) ≤ q) : m ≤ pyRound q := by
  refine le_trans ?_ (ratFloor_le_pyRound q)
  rw [ratFloor_eq]
  exact Int.le_floor.mpr h

theorem pyRound_le_of_le {n : ℤ} {q : ℚ} (h : q ≤ (n : ℚ)) : pyRound q ≤ n := by
  have hf : ratFloor q ≤ n := by
    rw [ratFloor_eq]
    calc ⌊q⌋ ≤ ⌊(n : ℚ)⌋ := Int.floor_le_floor h
    _ = n := Int.floor_intCast n
  have hkey : (1 / 2 : ℚ) ≤ q - (ratFloor q : ℚ) → ratFloor q + 1 ≤ n := by
    intro hr
    by_contra hc
    have h1 : n ≤ ratFloor q := by omega
    have h2 : (n : ℚ) ≤ (ratFloor q : ℚ) := by exact_mod_cast h1
    linarith
  unfold pyRound
  dsimp only
  split_ifs with h1 h2 h3
  · exact hf
  · exact hkey (by linarith [not_lt.mp h1])
  · exact hf
  · exact hkey (by linarith [not_lt.mp h1])

theorem pyRound5_bounds {a b : ℤ} {q : ℚ} (h1 : (a : ℚ) ≤ q) (h2 : q ≤ (b : ℚ)) :
    (a : ℚ) ≤ pyRound5 q ∧ pyRound5 q ≤ (b : ℚ) := by
  have hm1 : ((a * 100000 : ℤ) : ℚ) ≤ q * 100000 := by push_cast; linarith
  have hm2 : q * 100000 ≤ ((b * 100000 : ℤ) : ℚ) := by push_cast; linarith
  have r1 : a * 100000 ≤ pyRound (q * 100000) := le_pyRound_of_le hm1
  have r2 : pyRound (q * 100000) ≤ b * 100000 := pyRound_le_of_le hm2
  constructor
  · rw [pyRound5, le_div_iff₀ (by norm_num : (0 : ℚ) < 100000)]
    calc (a : ℚ) * 100000 = ((a * 100000 : ℤ) : ℚ) := by push_cast; ring
    _ ≤ _ := Int.cast_le.mpr r1
  · rw [pyRound5, div_le_iff₀ (by norm_num : (0 : ℚ) < 100000)]
    calc ((pyRound (q * 100000) : ℤ) : ℚ) ≤ ((b * 100000 : ℤ) : ℚ) := Int.cast_le.mpr r2
    _ = (b : ℚ) * 100000 := by push_cast; ring

theorem mem_bucketOf {ps : List (PyStr × Well)} {c : PyStr} {w : Well} :
    w ∈ bucketOf ps c ↔ (c, w) ∈ ps := by
  unfold bucketOf
  rw [List.mem_filterMap]
  constructor
  · rintro ⟨⟨c1, w1⟩, hp, hif⟩
    split_ifs at hif with h
    have hw : w1 = w := Option.some.inj hif
    rw [← h, ← hw]
    exact hp
  · intro h
    exact ⟨(c, w), h, by simp⟩

theorem mem_acceptedPairs {rows : List Row} {p : PyStr × Well} :
    p ∈ acceptedPairs rows ↔ ∃ r ∈ rows, normalizeRow r = some p :=
  List.mem_filterMap

theorem normalizeRow_eq_some {r : Row} {c : PyStr} {w : Well}
    (h : normalizeRow r = some (c, w)) :
    ∃ la lo, parse_float r.DECIMALLATITUDE = some la ∧
      parse_float r.DECIMALLONGITUDE = some lo ∧
      (32 ≤ la ∧ la ≤ 42 ∧ -125 ≤ lo ∧ lo ≤ -114) ∧
      c = county r ∧ w = mkWell r la lo := by
  unfold normalizeRow at h
  rcases hla : parse_float r.DECIMALLATITUDE with _ | la <;> rw [hla] at h
  · exact absurd h (by simp)
  rcases hlo : parse_float r.DECIMALLONGITUDE with _ | lo <;> rw [hlo] at h
  · exact absurd h (by simp)
  dsimp only at h
  split_ifs at h with henv
  simp only [Option.some.injEq, Prod.mk.injEq] at h
  exact ⟨la, lo, rfl, rfl, henv, h.1.symm, h.2.symm⟩

theorem normalizeRow_isSome_iff (r : Row) :
    (normalizeRow r).isSome = true ↔
      ∃ la lo, parse_float r.DECIMALLATITUDE = some la ∧
        parse_float r.DECIMALLONGITUDE = some lo ∧
        32 ≤ la ∧ la ≤ 42 ∧ -125 ≤ lo ∧ lo ≤ -114 := by
  unfold normalizeRow
  rcases hla : parse_float r.DECIMALLATITUDE with _ | la
  · simp [hla]
  rcases hlo : parse_float r.DECIMALLONGITUDE with _ | lo
  · simp [hlo]
  dsimp only
  split_ifs with henv
  · simp only [Option.isSome_some, true_iff]
    exact ⟨la, lo, rfl, rfl, henv.1, henv.2.1, henv.2.2.1, henv.2.2.2⟩
  · simp only [Option.isSome_none, Bool.false_eq_true, false_iff]
    rintro ⟨la1, lo1, h1, h2, h3⟩
    have e1 : la = la1 := Option.some.inj h1
    have e2 : lo = lo1 := Option.some.inj h2
    rw [← e1, ← e2] at h3
    exact henv ⟨h3.1, h3.2.1, h3.2.2.1, h3.2.2.2⟩

theorem acceptedPairs_append (rows1 rows2 : List Row) :
    acceptedPairs (rows1 ++ rows2) = acceptedPairs rows1 ++ acceptedPairs rows2 := by
  unfold acceptedPairs
  exact List.filterMap_append rows1 rows2 normalizeRow

theorem acceptedPairs_append_none {r : Row} (rows : List Row)
    (h : normalizeRow r = none) : acceptedPairs (rows ++ [r]) = acceptedPairs rows := by
  rw [acceptedPairs_append]
  simp [acceptedPairs, h]

theorem mem_sortedKeysOf {ps : List (PyStr × Well)} {c : PyStr} :
    c ∈ sortedKeysOf ps ↔ c ∈ ps.map Prod.fst := by
  unfold sortedKeysOf regionKeysOf
  rw [(List.perm_insertionSort _ _).mem_iff, List.mem_dedup]

theorem bucketOf_mem_of_pair {ps : List (PyStr × Well)} {c : PyStr} {w : Well}
    (h : (c, w) ∈ ps) : c ∈ sortedKeysOf ps ∧ w ∈ bucketOf ps c := by
  refine ⟨mem_sortedKeysOf.mpr ?_, mem_bucketOf.mpr h⟩
  exact List.mem_map.mpr ⟨(c, w), h, rfl⟩

theorem bucketOf_ne_nil {ps : List (PyStr × Well)} {c : PyStr}
    (h : c ∈ sortedKeysOf ps) : bucketOf ps c ≠ [] := by
  rcases List.mem_map.mp (mem_sortedKeysOf.mp h) with ⟨⟨c1, w⟩, hp, hc⟩
  cases hc
  intro hnil
  have := mem_bucketOf.mpr hp
  rw [hnil] at this
  exact absurd this (List.not_mem_nil w)

theorem foldl_min_le {α : Type} [LinearOrder α] (ds : List α) (d : α) :
    ∀ x ∈ d :: ds, ds.foldl min d ≤ x := by
  induction ds generalizing d with
  | nil =>
    intro x hx
    rcases List.mem_singleton.mp hx with h
    simp [h]
  | cons e es ih =>
    intro x hx
    rcases List.mem_cons.mp hx with h | h
    · calc es.foldl min (min d e) ≤ min d e := ih (min d e) _ (List.mem_cons_self _ _)
      _ ≤ d := min_le_left d e
      _ = x := h.symm
    rcases List.mem_cons.mp h with h1 | h1
    · calc es.foldl min (min d e) ≤ min d e := ih (min d e) _ (List.mem_cons_self _ _)
      _ ≤ e := min_le_right d e
      _ = x := h1.symm
    · exact ih (min d e) x (List.mem_cons_of_mem _ h1)

theorem foldl_min_mem {α : Type} [LinearOrder α] (ds : List α) (d : α) :
    ds.foldl min d ∈ d :: ds := by
  induction ds generalizing d with
  | nil => simp
  | cons e es ih =>
    have h := ih (min d e)
    rcases List.mem_cons.mp h with h1 | h1
    · rcases min_choice d e with hc | hc <;> rw [List.foldl_cons, h1, hc]
      · exact List.mem_cons_self _ _
      · exact List.mem_cons_of_mem _ (List.mem_cons_self _ _)
    · exact List.mem_cons_of_mem _ (List.mem_cons_of_mem _ h1)

theorem foldl_max_le {α : Type} [LinearOrder α] (ds : List α) (d : α) :
    ∀ x ∈ d :: ds, x ≤ ds.foldl max d := by
  induction ds generalizing d with
  | nil =>
    intro x hx
    rcases List.mem_singleton.mp hx with h
    simp [h]
  | cons e es ih =>
    intro x hx
    rcases List.mem_cons.mp hx with h | h
    · calc x = d := h
      _ ≤ max d e := le_max_left d e
      _ ≤ es.foldl max (max d e) := ih (max d e) _ (List.mem_cons_self _ _)
    rcases List.mem_cons.mp h with h1 | h1
    · calc x = e := h1
      _ ≤ max d e := le_max_right d e
      _ ≤ es.foldl max (max d e) := ih (max d e) _ (List.mem_cons_self _ _)
    · exact ih (max d e) x (List.mem_cons_of_mem _ h1)

theorem foldl_max_mem {α : Type} [LinearOrder α] (ds : List α) (d : α) :
    ds.foldl max d ∈ d :: ds := by
  induction ds generalizing d with
  | nil => simp
  | cons e es ih =>
    have h := ih (max d e)
    rcases List.mem_cons.mp h with h1 | h1
    · rcases max_choice d e with hc | hc <;> rw [List.foldl_cons, h1, hc]
      · exact List.mem_cons_self _ _
      · exact List.mem_cons_of_mem _ (List.mem_cons_self _ _)
    · exact List.mem_cons_of_mem _ (List.mem_cons_of_mem _ h1)

theorem listMinQ_le {l : List ℚ} (h : l ≠ []) : ∀ x ∈ l, listMinQ l ≤ x := by
  cases l with
  | nil => exact absurd rfl h
  | cons d ds => exact foldl_min_le ds d

theorem listMinQ_mem {l : List ℚ} (h : l ≠ []) : listMinQ l ∈ l := by
  cases l with
  | nil => exact absurd rfl h
  | cons d ds => exact foldl_min_mem ds d

theorem listMaxQ_le {l : List ℚ} (h : l ≠ []) : ∀ x ∈ l, x ≤ listMaxQ l := by
  cases l with
  | nil => exact absurd rfl h
  | cons d ds => exact foldl_max_le ds d

theorem listMaxQ_mem {l : List ℚ} (h : l ≠ []) : listMaxQ l ∈ l := by
  cases l with
  | nil => exact absurd rfl h
  | cons d ds => exact foldl_max_mem ds d

theorem bucketOf_length (ps : List (PyStr × Well)) (c : PyStr) :
    (bucketOf ps c).length = (ps.map Prod.fst).count c := by
  induction ps with
  | nil => rfl
  | cons p ps ih =>
    by_cases h : p.1 = c <;>
      simp [bucketOf, List.filterMap_cons, h, List.count_cons, ← ih, bucketOf]

theorem count_beq_bridge (c : PyStr) (l : List PyStr) :
    l.count c = @List.count PyStr instBEqOfDecidableEq c l := by
  induction l with
  | nil => rfl
  | cons a l ih => simp [List.count_cons, ih, beq_iff_eq]

theorem sum_bucket_lengths (ps : List (PyStr × Well)) :
    ((sortedKeysOf ps).map fun c => (bucketOf ps c).length).sum = ps.length := by
  have hperm : List.Perm (sortedKeysOf ps) (regionKeysOf ps) := List.perm_insertionSort _ _
  rw [(hperm.map _).sum_eq]
  unfold regionKeysOf
  calc ((((ps.map Prod.fst).dedup).map fun c => (bucketOf ps c).length)).sum
      = ((((ps.map Prod.fst).dedup).map
          fun c => @List.count PyStr instBEqOfDecidableEq c (ps.map Prod.fst))).sum := by
        refine congrArg List.sum (List.map_congr_left fun c _ => ?_)
        rw [bucketOf_length ps c, count_beq_bridge]
  _ = (ps.map Prod.fst).length := List.sum_map_count_dedup_eq_length _
  _ = ps.length := List.length_map ps Prod.fst

theorem length_acceptedPairs (rows : List Row) :
    (acceptedPairs rows).length = records_with_coords rows := by
  unfold acceptedPairs records_with_coords
  induction rows with
  | nil => rfl
  | cons r rows ih =>
    rcases h : normalizeRow r with _ | p <;>
      simp [List.filterMap_cons, List.countP_cons, h, ih]

theorem regionDepths_ne_zero {ws : List Well} {d : ℤ} (h : d ∈ regionDepths ws) : d ≠ 0 := by
  unfold regionDepths at h
  rcases List.mem_filterMap.mp h with ⟨w, _, hw⟩
  rcases hd : w.depth with _ | dv
  · rw [hd] at hw
    exact absurd hw (by simp)
  · rw [hd] at hw
    have hw2 : (if dv = 0 then none else some dv : Option ℤ) = some d := hw
    split_ifs at hw2 with hz
    have hvd : dv = d := Option.some.inj hw2
    omega

theorem regionDepths_all_zero {ws : List Well} (h : ∀ w ∈ ws, w.depth = some 0) :
    regionDepths ws = [] := by
  unfold regionDepths
  induction ws with
  | nil => rfl
  | cons w ws ih =>
    rw [List.filterMap_cons, h w (List.mem_cons_self _ _)]
    exact ih fun w1 hw1 => h w1 (List.mem_cons_of_mem _ hw1)

theorem regionSummary_depths (c : PyStr) (ws : List Well) :
    (regionDepths ws = [] →
      (regionSummary c ws).avgDepth = none ∧ (regionSummary c ws).minDepth = none ∧
        (regionSummary c ws).maxDepth = none) ∧
    (∀ d0 ds, regionDepths ws = d0 :: ds →
      (regionSummary c ws).avgDepth =
        some (pyRound ((((d0 :: ds).sum : ℤ) : ℚ) / ((d0 :: ds).length : ℚ))) ∧
      (regionSummary c ws).minDepth = some (ds.foldl min d0) ∧
      (regionSummary c ws).maxDepth = some (ds.foldl max d0)) := by
  constructor
  · intro h0
    refine ⟨?_, ?_, ?_⟩ <;> simp [regionSummary, h0]
  · intro d0 ds h
    refine ⟨?_, ?_, ?_⟩ <;> simp [regionSummary, h]


/-! Claim theorems. -/

/-- C1, counterexample: in exRowC1 the completed-depth field is present and
parses to 0, yet the emitted depth is 150 (the total drill depth), because
the Python or-operator treats 0 as falsy; so depth does not always equal the
completed-depth parse when that parse is present. -/
theorem C1_counterexample :
    parse_int exRowC1.TOTALCOMPLETEDDEPTH = some 0 ∧
    normalizeRow exRowC1 = some ("Unknown".toList, exWellC1) ∧
    exWellC1.depth = some 150 ∧
    exWellC1.depth ≠ parse_int exRowC1.TOTALCOMPLETEDDEPTH := by decide

/-- C1, amended: for every accepted row, depth equals the completed-depth
parse when that parse yields a nonzero integer, and equals the
total-drill-depth parse when the completed-depth parse is missing or zero. -/
theorem C1_amended_depth (r : Row) (c : PyStr) (w : Well)
    (h : normalizeRow r = some (c, w)) :
    (∀ d : ℤ, parse_int r.TOTALCOMPLETEDDEPTH = some d → d ≠ 0 → w.depth = some d) ∧
    (parse_int r.TOTALCOMPLETEDDEPTH = none → w.depth = parse_int r.TOTALDRILLDEPTH) ∧
    (parse_int r.TOTALCOMPLETEDDEPTH = some 0 → w.depth = parse_int r.TOTALDRILLDEPTH) := by
  rcases normalizeRow_eq_some h with ⟨la, lo, _, _, _, _, hw⟩
  subst hw
  refine ⟨?_, ?_, ?_⟩
  · intro d hd hdz
    simp [mkWell, pyOr, hd, hdz]
  · intro hd
    simp [mkWell, pyOr, hd]
  · intro hd
    simp [mkWell, pyOr, hd]

/-- C1, witness: the amended statement applied to exRowC1, whose
completed-depth parse is zero, so depth falls back to the drill depth. -/
theorem C1_witness : exWellC1.depth = parse_int exRowC1.TOTALDRILLDEPTH :=
  (C1_amended_depth exRowC1 ("Unknown".toList) exWellC1 (by decide)).2.2 (by decide)

/-- C2, counterexample: a region holding one record whose depth field is
present with value 0 reports avgDepth, minDepth and maxDepth all null,
contradicting both the rounded-mean clause and the only-when-no-depth
absence clause of the claim. -/
theorem C2_counterexample :
    bucket [exRowC2] "Unknown".toList = [exWellC2] ∧
    exWellC2.depth = some 0 ∧
    counties_json [exRowC2] =
      [{ name := "Unknown".toList, count := 1, avgDepth := none, minDepth := none,
         maxDepth := none }] := by decide

/-- C2, amended: for each summary entry, avgDepth is the rounded mean of the
nonzero depths of the region records (Python truthiness excludes 0 from the
sample), minDepth and maxDepth are attained lower and upper bounds of that
sample, and all three are null exactly when the nonzero-depth sample is
empty. -/
theorem C2_amended_stats (rows : List Row) (e : RegionSummary)
    (he : e ∈ counties_json rows) :
    (regionDepths (bucket rows e.name) = [] →
      e.avgDepth = none ∧ e.minDepth = none ∧ e.maxDepth = none) ∧
    (regionDepths (bucket rows e.name) ≠ [] →
      e.avgDepth = some (pyRound ((((regionDepths (bucket rows e.name)).sum : ℤ) : ℚ) /
        ((regionDepths (bucket rows e.name)).length : ℚ))) ∧
      (∃ m, e.minDepth = some m ∧ m ∈ regionDepths (bucket rows e.name) ∧
        ∀ d ∈ regionDepths (bucket rows e.name), m ≤ d) ∧
      (∃ M, e.maxDepth = some M ∧ M ∈ regionDepths (bucket rows e.name) ∧
        ∀ d ∈ regionDepths (bucket rows e.name), d ≤ M)) := by
  unfold counties_json counties_jsonOf at he
  rcases List.mem_map.mp he with ⟨c, _, hce⟩
  subst hce
  have hname : (regionSummary c (bucketOf (acceptedPairs rows) c)).name = c := rfl
  rw [hname]
  have hb : bucket rows c = bucketOf (acceptedPairs rows) c := rfl
  rw [← hb]
  constructor
  · intro h0
    exact (regionSummary_depths c (bucket rows c)).1 h0
  · intro hne
    rcases hlist : regionDepths (bucket rows c) with _ | ⟨d0, ds⟩
    · exact absurd hlist hne
    obtain ⟨havg, hmin, hmax⟩ := (regionSummary_depths c (bucket rows c)).2 d0 ds hlist
    refine ⟨havg, ⟨ds.foldl min d0, hmin, ?_, ?_⟩, ⟨ds.foldl max d0, hmax, ?_, ?_⟩⟩
    · exact foldl_min_mem ds d0
    · exact foldl_min_le ds d0
    · exact foldl_max_mem ds d0
    · exact foldl_max_le ds d0

/-- C2, witness: the amended statement applied to the two-row Kern-less
example, whose nonzero depths are 100 and 200. -/
theorem C2_witness :
    exSummaryC2.avgDepth =
      some (pyRound ((((regionDepths (bucket [exRowC2a, exRowC2b] exSummaryC2.name)).sum : ℤ) : ℚ) /
        ((regionDepths (bucket [exRowC2a, exRowC2b] exSummaryC2.name)).length : ℚ))) :=
  ((C2_amended_stats [exRowC2a, exRowC2b] exSummaryC2 (by decide)).2 (by decide)).1

/-- C3: every record stored in any bucket lies inside the California
envelope even after coordinate rounding; a row with a missing or unparsable
coordinate or an out-of-envelope coordinate is rejected by the normalizer;
and a rejected row leaves every output artifact unchanged. -/
theorem C3_envelope (rows : List Row) :
    (∀ c w, w ∈ bucket rows c →
      (32 : ℚ) ≤ w.lat ∧ w.lat ≤ 42 ∧ (-125 : ℚ) ≤ w.lon ∧ w.lon ≤ -114) ∧
    (∀ p ∈ county_files rows, ∀ w ∈ p.2,
      (32 : ℚ) ≤ w.lat ∧ w.lat ≤ 42 ∧ (-125 : ℚ) ≤ w.lon ∧ w.lon ≤ -114) ∧
    parse_float none = none ∧
    (∀ r : Row, (parse_float r.DECIMALLATITUDE = none ∨
        parse_float r.DECIMALLONGITUDE = none ∨
        ∀ la lo, parse_float r.DECIMALLATITUDE = some la →
          parse_float r.DECIMALLONGITUDE = some lo →
          ¬(32 ≤ la ∧ la ≤ 42 ∧ -125 ≤ lo ∧ lo ≤ -114)) →
      normalizeRow r = none) ∧
    (∀ r : Row, normalizeRow r = none →
      county_files (rows ++ [r]) = county_files rows ∧
      counties_json (rows ++ [r]) = counties_json rows ∧
      index_json (rows ++ [r]) = index_json rows) := by
  have hbound : ∀ c w, w ∈ bucket rows c →
      (32 : ℚ) ≤ w.lat ∧ w.lat ≤ 42 ∧ (-125 : ℚ) ≤ w.lon ∧ w.lon ≤ -114 := by
    intro c w hw
    rcases mem_acceptedPairs.mp (mem_bucketOf.mp hw) with ⟨r, _, hnr⟩
    rcases normalizeRow_eq_some hnr with ⟨la, lo, _, _, henv, _, hwW⟩
    subst hwW
    have hla := pyRound5_bounds (a := 32) (b := 42) (q := la)
      (by exact_mod_cast henv.1) (by exact_mod_cast henv.2.1)
    have hlo := pyRound5_bounds (a := -125) (b := -114) (q := lo)
      (by exact_mod_cast henv.2.2.1) (by exact_mod_cast henv.2.2.2)
    refine ⟨?_, ?_, ?_, ?_⟩ <;> simp only [mkWell]
    · exact_mod_cast hla.1
    · exact_mod_cast hla.2
    · exact_mod_cast hlo.1
    · exact_mod_cast hlo.2
  refine ⟨hbound, ?_, rfl, ?_, ?_⟩
  · intro p hp w hw
    unfold county_files county_filesOf at hp
    rcases List.mem_map.mp hp with ⟨c, _, hcp⟩
    subst hcp
    exact hbound c w hw
  · intro r hdisj
    rcases hla : parse_float r.DECIMALLATITUDE with _ | la
    · simp [normalizeRow, hla]
    rcases hlo : parse_float r.DECIMALLONGITUDE with _ | lo
    · simp [normalizeRow, hla, hlo]
    rcases hdisj with h1 | h2 | h3
    · exact absurd (hla.symm.trans h1) (by simp)
    · exact absurd (hlo.symm.trans h2) (by simp)
    · have hnot := h3 la lo hla hlo
      simp only [normalizeRow, hla, hlo]
      exact if_neg hnot
  · intro r hr
    have happ := acceptedPairs_append_none rows hr
    exact ⟨by simp only [county_files, happ], by simp only [counties_json, happ],
      by simp only [index_json, happ]⟩

/-- C3, witness: the envelope holds for the record of exRowC3, and the
out-of-envelope row badRowC3 (latitude 50) is rejected and changes no
artifact. -/
theorem C3_witness :
    ((32 : ℚ) ≤ exWellC3.lat ∧ exWellC3.lat ≤ 42 ∧
      (-125 : ℚ) ≤ exWellC3.lon ∧ exWellC3.lon ≤ -114) ∧
    normalizeRow badRowC3 = none ∧
    county_files ([exRowC3] ++ [badRowC3]) = county_files [exRowC3] := by
  have hbad : normalizeRow badRowC3 = none :=
    (C3_envelope []).2.2.2.1 badRowC3 (Or.inr (Or.inr (by
      intro la lo h1 h2 hcontra
      have e1 : (50 : ℚ) = la :=
        Option.some.inj ((show parse_float badRowC3.DECIMALLATITUDE = some 50 by decide).symm.trans h1)
      rw [← e1] at hcontra
      exact absurd hcontra.2.1 (by decide))))
  exact ⟨(C3_envelope [exRowC3]).1 ("Unknown".toList) exWellC3 (by decide), hbad,
    ((C3_envelope [exRowC3]).2.2.2.2 badRowC3 hbad).1⟩

/-- C4: the record counts of the per-region files sum to the
records_with_coords counter, and so do the count fields of counties.json
and of index.json. -/
theorem C4_counts (rows : List Row) :
    ((county_files rows).map fun f => f.2.length).sum = records_with_coords rows ∧
    ((counties_json rows).map fun e => e.count).sum = records_with_coords rows ∧
    ((index_json rows).map fun e => e.count).sum = records_with_coords rows := by
  have hlen := length_acceptedPairs rows
  have hsum := sum_bucket_lengths (acceptedPairs rows)
  refine ⟨?_, ?_, ?_⟩
  · unfold county_files county_filesOf
    rw [List.map_map]
    have hc : ((fun f : PyStr × List Well => f.2.length) ∘
        fun c => (filenameOf c, bucketOf (acceptedPairs rows) c)) =
        fun c => (bucketOf (acceptedPairs rows) c).length := rfl
    rw [hc, hsum, hlen]
  · unfold counties_json counties_jsonOf
    rw [List.map_map]
    have hc : ((fun e : RegionSummary => e.count) ∘
        fun c => regionSummary c (bucketOf (acceptedPairs rows) c)) =
        fun c => (bucketOf (acceptedPairs rows) c).length := rfl
    rw [hc, hsum, hlen]
  · unfold index_json index_jsonOf
    rw [List.map_map]
    rw [show ((fun e : IndexEntry => e.count) ∘ fun c =>
        ({ name := c, file := filenameOf c, count := (bucketOf (acceptedPairs rows) c).length,
           bounds := { minLat := listMinQ ((bucketOf (acceptedPairs rows) c).map Well.lat),
                       maxLat := listMaxQ ((bucketOf (acceptedPairs rows) c).map Well.lat),
                       minLon := listMinQ ((bucketOf (acceptedPairs rows) c).map Well.lon),
                       maxLon := listMaxQ ((bucketOf (acceptedPairs rows) c).map Well.lon) } }
          : IndexEntry)) = fun c => (bucketOf (acceptedPairs rows) c).length from rfl]
    rw [hsum, hlen]

/-- C5: every index entry carries the tight bounding box of its region
bucket: the four bounds enclose every stored record of the region and each
bound is attained by some record. -/
theorem C5_index_bounds (rows : List Row) (e : IndexEntry) (he : e ∈ index_json rows) :
    (∀ w ∈ bucket rows e.name,
      e.bounds.minLat ≤ w.lat ∧ w.lat ≤ e.bounds.maxLat ∧
      e.bounds.minLon ≤ w.lon ∧ w.lon ≤ e.bounds.maxLon) ∧
    (∃ w ∈ bucket rows e.name, w.lat = e.bounds.minLat) ∧
    (∃ w ∈ bucket rows e.name, w.lat = e.bounds.maxLat) ∧
    (∃ w ∈ bucket rows e.name, w.lon = e.bounds.minLon) ∧
    (∃ w ∈ bucket rows e.name, w.lon = e.bounds.maxLon) := by
  unfold index_json index_jsonOf at he
  rcases List.mem_map.mp he with ⟨c, hc, hce⟩
  subst hce
  have hne : bucketOf (acceptedPairs rows) c ≠ [] := bucketOf_ne_nil hc
  have hlats : (bucketOf (acceptedPairs rows) c).map Well.lat ≠ [] := by
    intro h0
    exact hne (List.map_eq_nil_iff.mp h0)
  have hlons : (bucketOf (acceptedPairs rows) c).map Well.lon ≠ [] := by
    intro h0
    exact hne (List.map_eq_nil_iff.mp h0)
  refine ⟨?_, ?_, ?_, ?_, ?_⟩
  · intro w hw
    have hwlat : w.lat ∈ (bucketOf (acceptedPairs rows) c).map Well.lat :=
      List.mem_map_of_mem Well.lat hw
    have hwlon : w.lon ∈ (bucketOf (acceptedPairs rows) c).map Well.lon :=
      List.mem_map_of_mem Well.lon hw
    exact ⟨listMinQ_le hlats _ hwlat, listMaxQ_le hlats _ hwlat,
      listMinQ_le hlons _ hwlon, listMaxQ_le hlons _ hwlon⟩
  · rcases List.mem_map.mp (listMinQ_mem hlats) with ⟨w, hw, hwl⟩
    exact ⟨w, hw, hwl⟩
  · rcases List.mem_map.mp (listMaxQ_mem hlats) with ⟨w, hw, hwl⟩
    exact ⟨w, hw, hwl⟩
  · rcases List.mem_map.mp (listMinQ_mem hlons) with ⟨w, hw, hwl⟩
    exact ⟨w, hw, hwl⟩
  · rcases List.mem_map.mp (listMaxQ_mem hlons) with ⟨w, hw, hwl⟩
    exact ⟨w, hw, hwl⟩

/-- C5, witness: the bounds of the Kern entry enclose the record of
exRowC5a. -/
theorem C5_witness :
    exEntryC5.bounds.minLat ≤ exWellC5.lat ∧ exWellC5.lat ≤ exEntryC5.bounds.maxLat ∧
    exEntryC5.bounds.minLon ≤ exWellC5.lon ∧ exWellC5.lon ≤ exEntryC5.bounds.maxLon :=
  (C5_index_bounds [exRowC5a, exRowC5b] exEntryC5 (by decide)).1 exWellC5 (by decide)

/-- C6: the normalizer accepts a row exactly when both coordinate fields
parse and the parsed values lie inside the California envelope; acceptance
never depends on the remaining fields, and rejection is the none signal of
a total function. -/
theorem C6_accept_iff (r : Row) :
    (normalizeRow r).isSome = true ↔
      ∃ la lo, parse_float r.DECIMALLATITUDE = some la ∧
        parse_float r.DECIMALLONGITUDE = some lo ∧
        32 ≤ la ∧ la ≤ 42 ∧ -125 ≤ lo ∧ lo ≤ -114 :=
  normalizeRow_isSome_iff r

/-- C7: year extraction follows the claimed rules: strings shorter than 4
characters give no year; a slash string splitting into exactly 3 parts gives
the integer parse of the third part, and any other slash arity gives no
year; otherwise a hyphen string gives the integer parse of its first 4
characters; a string with neither separator gives no year. -/
theorem C7_year_rules (s : PyStr) :
    (s.length < 4 → extract_year s = none) ∧
    (4 ≤ s.length → s.contains '/' = true →
      ∀ a b y, pySplit '/' s = [a, b, y] → extract_year s = pyParseIntStr y) ∧
    (4 ≤ s.length → s.contains '/' = true →
      (pySplit '/' s).length ≠ 3 → extract_year s = none) ∧
    (4 ≤ s.length → s.contains '/' = false → s.contains '-' = true →
      extract_year s = pyParseIntStr (s.take 4)) ∧
    (4 ≤ s.length → s.contains '/' = false → s.contains '-' = false →
      extract_year s = none) := by
  refine ⟨?_, ?_, ?_, ?_, ?_⟩
  · intro h
    unfold extract_year
    rw [if_neg (by omega)]
  · intro h4 hsl a b y hsp
    unfold extract_year
    rw [if_pos h4, if_pos hsl, hsp]
  · intro h4 hsl hlen
    unfold extract_year
    rw [if_pos h4, if_pos hsl]
    rcases hsp : pySplit '/' s with _ | ⟨a, _ | ⟨b, _ | ⟨y, _ | ⟨z, t⟩⟩⟩⟩
    · rfl
    · rfl
    · rfl
    · exact absurd (by rw [hsp]; rfl : (pySplit '/' s).length = 3) hlen
    · rfl
  · intro h4 hsl hh
    unfold extract_year
    rw [if_pos h4, if_neg (fun hco => Bool.false_ne_true (hsl ▸ hco)), if_pos hh]
  · intro h4 hsl hh
    unfold extract_year
    rw [if_pos h4, if_neg (fun hco => Bool.false_ne_true (hsl ▸ hco)),
      if_neg (fun hco => Bool.false_ne_true (hh ▸ hco))]

/-- C7, witness: the slash rule applied to the claim example 03/15/2010. -/
theorem C7_witness :
    extract_year "03/15/2010".toList = pyParseIntStr "2010".toList ∧
    pyParseIntStr "2010".toList = some 2010 :=
  ⟨(C7_year_rules "03/15/2010".toList).2.1 (by decide) (by decide)
    "03".toList "15".toList "2010".toList (by decide), by decide⟩

/-- C8: an accepted row with a missing county column or a blank county name
is grouped under the sentinel region Unknown, whose per-region file is
unknown.json; a nonblank county name is used trimmed; and the record lands
in the file written for its region. -/
theorem C8_unknown_region (rows : List Row) (r : Row) (c : PyStr) (w : Well)
    (hr : r ∈ rows) (h : normalizeRow r = some (c, w)) :
    (r.COUNTYNAME = none → c = "Unknown".toList) ∧
    (∀ s, r.COUNTYNAME = some s → pyStrip s = [] → c = "Unknown".toList) ∧
    (∀ s, r.COUNTYNAME = some s → pyStrip s ≠ [] → c = pyStrip s) ∧
    w ∈ bucket rows c ∧
    (filenameOf c, bucket rows c) ∈ county_files rows ∧
    filenameOf "Unknown".toList = "unknown.json".toList := by
  rcases normalizeRow_eq_some h with ⟨la, lo, _, _, _, hc, _⟩
  subst hc
  have hpair : (county r, w) ∈ acceptedPairs rows := mem_acceptedPairs.mpr ⟨r, hr, h⟩
  have hkeys := bucketOf_mem_of_pair hpair
  refine ⟨?_, ?_, ?_, hkeys.2, ?_, by decide⟩
  · intro hcn
    unfold county
    rw [hcn]
    decide
  · intro s hs hsp
    unfold county
    rw [hs]
    show (if pyStrip s = [] then "Unknown".toList else pyStrip s) = "Unknown".toList
    rw [if_pos hsp]
  · intro s hs hsp
    unfold county
    rw [hs]
    show (if pyStrip s = [] then "Unknown".toList else pyStrip s) = pyStrip s
    rw [if_neg hsp]
  · unfold county_files county_filesOf
    exact List.mem_map.mpr ⟨county r, hkeys.1, rfl⟩

/-- C8, witness: the blank-county row exRowC8 lands in region Unknown and in
the file unknown.json. -/
theorem C8_witness :
    exWellC8 ∈ bucket [exRowC8] "Unknown".toList ∧
    (filenameOf "Unknown".toList, bucket [exRowC8] "Unknown".toList) ∈ county_files [exRowC8] ∧
    filenameOf "Unknown".toList = "unknown.json".toList := by
  have t := C8_unknown_region [exRowC8] exRowC8 ("Unknown".toList) exWellC8
    (by decide) (by decide)
  exact ⟨t.2.2.2.1, t.2.2.2.2.1, t.2.2.2.2.2⟩

/-- C9: every index entry file field equals the filename derived from the
entry region name by lowercasing, hyphenating spaces, deleting periods and
appending .json, and that same pair of filename and bucket is among the
per-region file writes. -/
theorem C9_index_filenames (rows : List Row) (e : IndexEntry) (he : e ∈ index_json rows) :
    e.file = filenameOf e.name ∧
    (e.file, bucket rows e.name) ∈ county_files rows := by
  unfold index_json index_jsonOf at he
  rcases List.mem_map.mp he with ⟨c, hc, hce⟩
  subst hce
  refine ⟨rfl, ?_⟩
  unfold county_files county_filesOf
  exact List.mem_map.mpr ⟨c, hc, rfl⟩

/-- C9, witness: the Los Angeles entry carries los-angeles.json, matching
its per-region file. -/
theorem C9_witness :
    exEntryC9.file = filenameOf exEntryC9.name ∧
    (exEntryC9.file, bucket [exRowC9] exEntryC9.name) ∈ county_files [exRowC9] :=
  C9_index_filenames [exRowC9] exEntryC9 (by decide)

/-- C10: an accepted row whose selected depth is exactly 0 keeps the depth
key in its serialized record (only None values are stripped), increments
records_with_depth, yet contributes nothing to the depth sample of its
region, so a region whose records all carry depth 0 reports null depth
statistics in counties.json. -/
theorem C10_zero_depth (rows : List Row) (r : Row) (c : PyStr) (w : Well)
    (h : normalizeRow r = some (c, w)) (hd : w.depth = some 0) :
    records_with_depth (rows ++ [r]) = records_with_depth rows + 1 ∧
    "depth" ∈ wellKeys w ∧
    w ∈ bucket (rows ++ [r]) c ∧
    (0 : ℤ) ∉ regionDepths (bucket (rows ++ [r]) c) ∧
    ((∀ w1 ∈ bucket (rows ++ [r]) c, w1.depth = some 0) →
      regionSummary c (bucket (rows ++ [r]) c) ∈ counties_json (rows ++ [r]) ∧
      (regionSummary c (bucket (rows ++ [r]) c)).avgDepth = none ∧
      (regionSummary c (bucket (rows ++ [r]) c)).minDepth = none ∧
      (regionSummary c (bucket (rows ++ [r]) c)).maxDepth = none) := by
  have hpair : (c, w) ∈ acceptedPairs (rows ++ [r]) :=
    mem_acceptedPairs.mpr ⟨r, List.mem_append_right _ (List.mem_singleton.mpr rfl), h⟩
  have hkeys := bucketOf_mem_of_pair hpair
  refine ⟨?_, ?_, hkeys.2, ?_, ?_⟩
  · unfold records_with_depth
    rw [acceptedPairs_append, List.countP_append]
    have hone : acceptedPairs [r] = [(c, w)] := by simp [acceptedPairs, h]
    rw [hone]
    simp [List.countP_cons, hd]
  · simp [wellKeys, hd]
  · intro hmem
    exact regionDepths_ne_zero hmem rfl
  · intro hall
    have hzero := regionDepths_all_zero hall
    refine ⟨?_, ((regionSummary_depths c _).1 hzero).1,
      ((regionSummary_depths c _).1 hzero).2.1, ((regionSummary_depths c _).1 hzero).2.2⟩
    unfold counties_json counties_jsonOf
    exact List.mem_map.mpr ⟨c, hkeys.1, rfl⟩

/-- C10, witness: the zero-depth row exRowC10 as only input. -/
theorem C10_witness :
    records_with_depth ([] ++ [exRowC10]) = records_with_depth [] + 1 ∧
    "depth" ∈ wellKeys exWellC10 ∧
    (regionSummary ("Unknown".toList) (bucket ([] ++ [exRowC10]) "Unknown".toList)).avgDepth =
      none := by
  have t := C10_zero_depth [] exRowC10 ("Unknown".toList) exWellC10 (by decide) (by decide)
  exact ⟨t.1, t.2.1, (t.2.2.2.2 (by decide)).2.1⟩
